import Mathlib

/-!
Verification of the `wbia-plugin-id-example` repository (file
`src/ibeis_plugin_identification_example/_plugin.py`) against its
natural-language specification.

The repository's own code is the three dependency-cache compute functions
(`..._image_hash_sum`, `..._image_hash_prod`, `..._oracle`) and the config
schemas (`_param_info_list` declarations); those are embedded directly from
the source.  The dependency-cache engine itself (`dtool` / `depc`: config
canonicalization, config resolution, the cache store and the graph
executor) lives in the external host framework and is not part of this
repository's files; those parts are modelled from the specification's
words (each such definition is marked `Modelled from the spec:`).

Python-specific conventions used by the embedding: the hash column values
are Python 3 `bytes`, so iterating over a hash yields the ASCII ordinal of
each character as an `int` (embedded as `Nat` / `Int`); Python's `%` on
integers is floored modulus (`Int.fmod`).
-/

namespace IdPlugin

/-- Python floored modulus on integers (`a % b` in Python follows the sign
of `b`), as used by the hash-prod compute function. -/
def pymod (a b : Int) : Int := Int.fmod a b

/-- The sum of one hash, from `ibeis_plugin_identification_example_image_hash_sum`
(`_plugin.py` lines 886-898): a running total over the characters of the
hash (byte ordinals, since `int(character)` on a Python 3 `bytes` element is
the ordinal itself), with the modulus applied after every addition when the
`hash_sum_mod` config value is not `None`. -/
def hash_sum_single (modulus : Option Nat) (hash : List Nat) : Nat :=
  hash.foldl
    (fun total character =>
      match modulus with
      | Option.none => total + character
      | Option.some m => (total + character) % m)
    0

/-- The compute function `ibeis_plugin_identification_example_image_hash_sum`
applied to the hash values fetched for the batch of parent row ids: one
output per input hash, in input order (the Python function is a generator
yielding one `(total,)` tuple per hash). -/
def ibeis_plugin_identification_example_image_hash_sum
    (hash_list : List (List Nat)) (modulus : Option Nat) : List Nat :=
  hash_list.map (hash_sum_single modulus)

/-- The product of one hash, from
`ibeis_plugin_identification_example_image_hash_prod` (`_plugin.py` lines
966-987): each character is mapped to `abs(int(character)) + 1`, the running
total is multiplied by it, reduced with Python `%` by `hash_prod_mod` after
every multiplication, and `1` is added after each reduction. -/
def hash_prod_single (modulus : Int) (hash : List Int) : Int :=
  hash.foldl
    (fun total character => pymod (total * (|character| + 1)) modulus + 1)
    0

/-- The compute function `ibeis_plugin_identification_example_image_hash_prod`
(`_plugin.py` lines 926-987).  Before any hash is processed the function
asserts `-1e7 <= modulus <= 1e7`; an out-of-range modulus therefore raises
an `AssertionError` inside the compute function itself. -/
def ibeis_plugin_identification_example_image_hash_prod
    (modulus : Int) (hash_list : List (List Int)) : Except String (List Int) :=
  if -10000000 ≤ modulus ∧ modulus ≤ 10000000 then
    Except.ok (hash_list.map (hash_prod_single modulus))
  else
    Except.error "AssertionError: modulus should be relatively small (within a million of zero)"

/-- One oracle decision, from `ibeis_plugin_identification_example_oracle`
(`_plugin.py` lines 1331-1346): `result` is whether the two ground-truth
name ids agree; the decision is flipped when the RNG draw satisfies
`random.uniform(0.0, 1.0) <= oracle_fallibility` (note the non-strict
comparison in the source); the score is `1.0` for a prediction of same and
`0.0` for different. -/
def oracle_score (same : Bool) (fallibility draw : Rat) : Rat :=
  let result := if draw ≤ fallibility then !same else same
  if result then 1 else 0

/-- The compute function `ibeis_plugin_identification_example_oracle`
(`_plugin.py` lines 1305-1346): given the ground-truth name id of every
annotation (`nid`, the code's `get_annot_nids` lookup), the fallibility
config value and a stream of RNG draws (`draws i` is the `random.uniform`
draw for the `i`-th pair), it yields one score per (query id, database id)
pair, in input order. -/
def ibeis_plugin_identification_example_oracle
    (nid : Nat → Int) (fallibility : Rat)
    (pair_list : List (Nat × Nat)) (draws : Nat → Rat) : List Rat :=
  pair_list.enum.map
    (fun p => oracle_score (nid p.2.1 == nid p.2.2) fallibility (draws p.1))

/-- The documented 40-character hash from the `..._image_hash` doctest
(`_plugin.py` line 769): `b'3006e4db0ed513a0bdb8eda85ee14d5d16ca7165'`. -/
def doc_hash_string : String := "3006e4db0ed513a0bdb8eda85ee14d5d16ca7165"

/-- The byte ordinals of `doc_hash_string`, which is what iterating over the
Python 3 `bytes` hash yields. -/
def doc_hash : List Nat := doc_hash_string.data.map Char.toNat

/-- A Python value as it occurs in the example's config schemas: a string,
an integer, a bytes literal (ASCII content) or `None`. -/
inductive PyVal where
  | str : String → PyVal
  | int : Int → PyVal
  | bytes : String → PyVal
  | none : PyVal
deriving DecidableEq

/-- Python `repr` on the config values of this plug-in: strings are quoted,
bytes get a `b'...'` form, integers print their digits, `None` prints
`None`. -/
def pyRepr : PyVal → String
  | PyVal.str s => "'" ++ s ++ "'"
  | PyVal.int n => toString n
  | PyVal.bytes s => "b'" ++ s ++ "'"
  | PyVal.none => "None"

/-- Python `str` on the config values of this plug-in: identical to `repr`
except that a string prints without quotes. -/
def pyStr : PyVal → String
  | PyVal.str s => s
  | v => pyRepr v

/-- The declared type restriction of a config parameter (only `int` is used
by the example schemas, for `hash_rounds`). -/
inductive PyType where
  | int : PyType
deriving DecidableEq

/-- One entry of a `_param_info_list` (`ut.ParamInfo`): declared name,
default value, whether the parameter is marked hide-if-default (`hideif` at
its default in the source), the allowed-values set (`valid_values`) and the
type validator (`type_`), when declared. -/
structure ParamInfo where
  name : String
  default : PyVal
  hideif : Bool
  valid_values : Option (List PyVal)
  type_check : Option PyType
deriving DecidableEq

/-- The `_param_info_list` of `IdentificationExampleImageHashConfig`
(`_plugin.py` lines 678-682). -/
def IdentificationExampleImageHashConfig : List ParamInfo :=
  [⟨"hash_algorithm", PyVal.str "sha1", false,
      Option.some [PyVal.str "sha1", PyVal.str "sha256"], Option.none⟩,
   ⟨"hash_rounds", PyVal.int 1000000, false, Option.none, Option.some PyType.int⟩,
   ⟨"hash_salt", PyVal.none, true, Option.none, Option.none⟩]

/-- The `_param_info_list` of `IdentificationExampleImageHashSumConfig`
(`_plugin.py` lines 815-817). -/
def IdentificationExampleImageHashSumConfig : List ParamInfo :=
  [⟨"hash_sum_mod", PyVal.none, true, Option.none, Option.none⟩]

/-- The `_param_info_list` of `IdentificationExampleImageHashProdConfig`
(`_plugin.py` lines 915-917): note that `hash_prod_mod` declares no
`valid_values` and no type validator. -/
def IdentificationExampleImageHashProdConfig : List ParamInfo :=
  [⟨"hash_prod_mod", PyVal.int 1000, false, Option.none, Option.none⟩]

/-- The value a parameter resolves to: the supplied value when the caller
set it, the declared default otherwise. -/
def resolve_value (supplied : List (String × PyVal)) (p : ParamInfo) : PyVal :=
  match supplied.lookup p.name with
  | Option.some v => v
  | Option.none => p.default

/-- Whether a value passes a declared type validator. -/
def type_ok : Option PyType → PyVal → Bool
  | Option.none, _ => true
  | Option.some PyType.int, v =>
    match v with
    | PyVal.int _ => true
    | _ => false

/-- Whether a parameter's resolved value satisfies its declared constraints:
inside the allowed-values set and passing the type validator. -/
def check_param (supplied : List (String × PyVal)) (p : ParamInfo) : Bool :=
  let v := resolve_value supplied p
  (match p.valid_values with
   | Option.none => true
   | Option.some vs => vs.contains v) && type_ok p.type_check v

/-- Modelled from the spec: constructing a resolved config (the engine's
config-resolution step, which is part of the external `dtool` framework,
not of this repository's files) fails with `InvalidConfigError` if a
supplied value is outside the parameter's allowed-values set or fails its
type validator; otherwise every parameter resolves to its supplied value or
its default. -/
def resolve_config (params : List ParamInfo) (supplied : List (String × PyVal)) :
    Except String (List (String × PyVal)) :=
  if params.all (check_param supplied) then
    Except.ok (params.map (fun p => (p.name, resolve_value supplied p)))
  else
    Except.error "InvalidConfigError"

/-- Modelled from the spec: the config-key canonicalization of the external
`dtool` framework exactly as the spec words it — for each schema parameter
in declared order, omit it when its resolved value equals the declared
default and the parameter is marked hide-if-default, otherwise append
`name=repr(value)`; join with commas inside `NodeName(...)`. -/
def canonicalize_repr (node_name : String) (params : List ParamInfo)
    (supplied : List (String × PyVal)) : String :=
  node_name ++ "(" ++
    String.intercalate ","
      (params.filterMap
        (fun p =>
          let v := resolve_value supplied p
          if p.hideif && (v == p.default) then Option.none
          else Option.some (p.name ++ "=" ++ pyRepr v))) ++ ")"

/-- Modelled from the spec: the same canonicalization but with each shown
parameter appended as `name=str(value)` (Python `str`), which is the
formatting the repository's own doctests document (`get_cfgstr` shows
`hash_algorithm=sha1`, without quotes, and `hash_salt=b'test'`). -/
def canonicalize_str (node_name : String) (params : List ParamInfo)
    (supplied : List (String × PyVal)) : String :=
  node_name ++ "(" ++
    String.intercalate ","
      (params.filterMap
        (fun p =>
          let v := resolve_value supplied p
          if p.hideif && (v == p.default) then Option.none
          else Option.some (p.name ++ "=" ++ pyStr v))) ++ ")"

abbrev EntityId := Nat

abbrev RowId := Nat

abbrev ConfigKey := String

/-- Modelled from the spec: the `CacheStore` partition of one node (the
engine's SQLite-backed cache is part of the external framework, not of this
repository's files).  Each row is `(config key, entity id, native row id,
column value)`; `next_rowid` is the source of fresh native row ids, which
are private to the node and never reused. -/
structure CacheStore (α : Type) where
  rows : List (ConfigKey × EntityId × RowId × α)
  next_rowid : RowId
deriving DecidableEq

/-- The empty cache partition. -/
def CacheStore.empty {α : Type} : CacheStore α := ⟨[], 0⟩

/-- Modelled from the spec: `CacheStore.get_rows` for a single entity id —
the row stored for `(cfg, e)`, or absent when never computed or since
invalidated. -/
def lookup_row {α : Type} (rows : List (ConfigKey × EntityId × RowId × α))
    (cfg : ConfigKey) (e : EntityId) : Option (RowId × α) :=
  match rows with
  | [] => Option.none
  | (c, e0, r, v) :: rest =>
    if c = cfg ∧ e0 = e then Option.some (r, v) else lookup_row rest cfg e

/-- Overwriting the column value of every row keyed `(cfg, e)`, keeping its
native row id (the recompute branch of `put_rows`). -/
def overwrite_row {α : Type} :
    List (ConfigKey × EntityId × RowId × α) → ConfigKey → EntityId → α →
      List (ConfigKey × EntityId × RowId × α)
  | [], _, _, _ => []
  | (c, e0, r, v0) :: rest, cfg, e, v =>
    if c = cfg ∧ e0 = e then (c, e0, r, v) :: overwrite_row rest cfg e v
    else (c, e0, r, v0) :: overwrite_row rest cfg e v

/-- Modelled from the spec: `CacheStore.put_rows` for one row — an upsert that
assigns a fresh native row id to an id not previously present and overwrites
the column value, never the native row id, of an id already present. -/
def put_row {α : Type} (t : CacheStore α) (cfg : ConfigKey) (e : EntityId) (v : α) :
    CacheStore α :=
  match lookup_row t.rows cfg e with
  | Option.some _ => ⟨overwrite_row t.rows cfg e v, t.next_rowid⟩
  | Option.none => ⟨t.rows ++ [(cfg, e, t.next_rowid, v)], t.next_rowid + 1⟩

/-- The worker of `chunk_list`: `n` is the fixed chunk size, `k` the free
capacity of the chunk being built, `acc` the chunk being built (in order).
A chunk is emitted when its capacity is exhausted or the input ends. -/
def chunk_go {β : Type} (n : Nat) : List β → Nat → List β → List (List β)
  | [], _, acc => if acc.isEmpty then [] else [acc]
  | a :: l, 0, acc => acc :: chunk_go n l (n - 1) [a]
  | a :: l, k + 1, acc => chunk_go n l k (acc ++ [a])

/-- Splitting a list into consecutive batches of at most `n` elements
(`n = 0` is treated as unbounded and is never used by the model). -/
def chunk_list {β : Type} (n : Nat) (l : List β) : List (List β) :=
  match n with
  | 0 => if l.isEmpty then [] else [l]
  | m + 1 => chunk_go (m + 1) l (m + 1) []

/-- Modelled from the spec: the executor's chunking step — an empty miss set
yields no batch at all (the compute function is never passed an empty id
batch), an unset chunk size passes the entire miss set as one batch, and a
set chunk size splits it into batches of at most that size. -/
def chunks {β : Type} : Option Nat → List β → List (List β)
  | _, [] => []
  | Option.none, l => [l]
  | Option.some n, l => chunk_list n l

/-- Computing and storing one batch of missing ids: each id's value is the
compute function applied to it, stored with a fresh native row id. -/
def process_ids {α : Type} (f : EntityId → α) (cfg : ConfigKey) (t : CacheStore α)
    (l : List EntityId) : CacheStore α :=
  l.foldl (fun acc e => put_row acc cfg e (f e)) t

/-- What one `get` call returns in the model: the sequence parallel to the
input ids (native row id and column value per id), the cache partition
afterwards, and the batches passed to the compute function, in call order. -/
structure GetOut (α : Type) where
  out : List (RowId × α)
  store : CacheStore α
  calls : List (List EntityId)
deriving DecidableEq

/-- Modelled from the spec: the `GraphExecutor.get` algorithm for one node
over its already-resolved parent id space (the executor is part of the
external framework, not of this repository's files).  It partitions the
requested ids into hits and misses, splits the misses into batches of at
most the chunk size, invokes the compute function per batch, stores the new
rows, and returns the merged sequence in the order of the input ids,
duplicates repeated. -/
def executor_get {α : Type} (f : EntityId → α) (chunksize : Option Nat)
    (cfg : ConfigKey) (t : CacheStore α) (entity_ids : List EntityId) : GetOut α :=
  let missing := entity_ids.dedup.filter (fun e => (lookup_row t.rows cfg e).isNone)
  let batches := chunks chunksize missing
  let t2 := batches.foldl (fun acc b => process_ids f cfg acc b) t
  ⟨entity_ids.map (fun e => (lookup_row t2.rows cfg e).getD (0, f e)), t2, batches⟩

/-- Modelled from the spec: `delete_property` — removes the rows of exactly
the targeted `(config key, entity id)` pairs of this node, a no-op for
absent ones, not touching other config keys. -/
def delete_property {α : Type} (t : CacheStore α) (cfg : ConfigKey)
    (entity_ids : List EntityId) : CacheStore α :=
  ⟨t.rows.filter (fun q => decide (¬ (q.1 = cfg ∧ q.2.1 ∈ entity_ids))), t.next_rowid⟩

/-- Modelled from the spec: `delete_property_all` — removes this node's rows
for the targeted entity ids across every config key. -/
def delete_property_all {α : Type} (t : CacheStore α)
    (entity_ids : List EntityId) : CacheStore α :=
  ⟨t.rows.filter (fun q => decide (¬ q.2.1 ∈ entity_ids)), t.next_rowid⟩

/-- Modelled from the spec: the cache state of a parent/child node pair
(image-hash as parent, hash-sum or hash-prod as child). -/
structure ChainState (α β : Type) where
  parent : CacheStore α
  child : CacheStore β

/-- The empty two-node cache state. -/
def ChainState.empty {α β : Type} : ChainState α β := ⟨CacheStore.empty, CacheStore.empty⟩

/-- Modelled from the spec: `get_native` — addressing a node's cache by its
own native row ids, as the hash-sum and hash-prod compute functions do to
fetch their parent's hash column. -/
def lookup_native {α : Type} (rows : List (ConfigKey × EntityId × RowId × α))
    (r : RowId) : Option α :=
  match rows with
  | [] => Option.none
  | (_, _, r0, v) :: rest =>
    if r0 = r then Option.some v else lookup_native rest r

/-- What one child-node `get` returns in the model: the child rows parallel
to the input entity ids, the state afterwards, the parent's native row ids
that became the child's id space, and the batch traces of the parent's and
the child's compute invocations. -/
structure ChainOut (α β : Type) where
  out : List (RowId × β)
  state : ChainState α β
  parent_rowids : List RowId
  parent_calls : List (List EntityId)
  child_calls : List (List RowId)

/-- Modelled from the spec: `GraphExecutor.get` on a child node — step 2 of
the algorithm first recursively ensures the parent rows for the same entity
ids, obtaining parent native row ids as the id space for the child; only
then are the child's misses computed, the child's compute function reading
its parent's rows through `get_native`. -/
def chain_get {α β : Type} [Inhabited α] (fp : EntityId → α) (fc : α → β)
    (cp cc : Option Nat) (cfgP cfgC : ConfigKey) (s : ChainState α β)
    (entity_ids : List EntityId) : ChainOut α β :=
  let rp := executor_get fp cp cfgP s.parent entity_ids
  let prids := rp.out.map Prod.fst
  let rc := executor_get (fun r => fc ((lookup_native rp.store.rows r).getD default))
    cc cfgC s.child prids
  ⟨rc.out, ⟨rp.store, rc.store⟩, prids, rp.calls, rc.calls⟩

/-- The compute-invocation trace of a child-node `get`: parent batches (left)
followed by child batches (right), in invocation order. -/
def chain_events {α β : Type} (r : ChainOut α β) : List (List EntityId ⊕ List RowId) :=
  r.parent_calls.map Sum.inl ++ r.child_calls.map Sum.inr

/-- Modelled from the spec: deleting a child node's rows — deletion does not
cascade, so the parent's partition is untouched. -/
def chain_delete_child_property {α β : Type} (s : ChainState α β) (cfg : ConfigKey)
    (entity_ids : List EntityId) : ChainState α β :=
  ⟨s.parent, delete_property s.child cfg entity_ids⟩

/-- Modelled from the spec: deleting a parent node's rows — deletion does not
cascade, so the child's partition is untouched. -/
def chain_delete_parent_property {α β : Type} (s : ChainState α β) (cfg : ConfigKey)
    (entity_ids : List EntityId) : ChainState α β :=
  ⟨delete_property s.parent cfg entity_ids, s.child⟩

/-- A small concrete cache partition used to exercise the deletion
operations: two rows under config key `"A"` (entities 1 and 2) and one row
under config key `"B"` (entity 1). -/
def sample_store : CacheStore Nat :=
  ⟨[("A", 1, 0, 10), ("B", 1, 1, 20), ("A", 2, 2, 30)], 3⟩

/-- A concrete two-node state built from `sample_store`. -/
def sample_chain : ChainState Nat Nat := ⟨sample_store, sample_store⟩

/-- A concrete child-node `get` from empty caches: parent chunk size 1,
child chunk size 10, two entity ids. -/
def sample_chain_get : ChainOut Nat Nat :=
  chain_get (fun e => e + 10) (fun a => a * 2) (Option.some 1) (Option.some 10)
    "P" "C" ChainState.empty [1, 2]

end IdPlugin

deriving instance DecidableEq for Except

namespace IdPlugin

theorem foldl_add_mod (m : Nat) :
    ∀ (l : List Nat) (t : Nat),
      l.foldl (fun total c => (total + c) % m) (t % m) = (t + l.sum) % m := by
  intro l
  induction l with
  | nil => intro t; simp
  | cons c rest ih =>
    intro t
    simp only [List.foldl_cons, List.sum_cons]
    rw [Nat.mod_add_mod, ih (t + c), Nat.add_assoc]

/-- C1 (counterexample): the hash-sum node's output for the documented hash
`b'3006e4db0ed513a0bdb8eda85ee14d5d16ca7165'` under modulus 100 is 24, not
the documented first value 53 (which belongs to the hash computed with salt
`b'deterministic'`, a hash the source does not print). -/
theorem hash_sum_doc_hash_counterexample :
    ibeis_plugin_identification_example_image_hash_sum [doc_hash] (Option.some 100) = [24]
    ∧ ibeis_plugin_identification_example_image_hash_sum [doc_hash] (Option.some 100) ≠ [53] := by
  decide

/-- C1 (amended): the hash-sum output is the running total of the hash's
character values (byte ordinals) with the modulus applied after every
addition — for a positive modulus this equals the plain sum reduced once —
and for the documented hash under modulus 100 the value is 24. -/
theorem hash_sum_amended :
    (∀ (hash : List Nat) (m : Nat), 0 < m →
        hash_sum_single (Option.some m) hash = hash.sum % m)
    ∧ ibeis_plugin_identification_example_image_hash_sum [doc_hash] (Option.some 100) = [24] := by
  constructor
  · intro hash m _hm
    show hash.foldl (fun total c => (total + c) % m) 0 = hash.sum % m
    conv_lhs => rw [show (0 : Nat) = 0 % m from (Nat.zero_mod m).symm]
    rw [foldl_add_mod m hash 0, Nat.zero_add]
  · decide

/-- C1 (witness): the amended running-total characterization applied at the
documented hash and modulus 100. -/
theorem hash_sum_amended_witness :
    hash_sum_single (Option.some 100) doc_hash = doc_hash.sum % 100 :=
  hash_sum_amended.1 doc_hash 100 (by norm_num)

/-- C2 (code_bug evaluation): with `oracle_fallibility = 0.0` and two
annotations of the same ground-truth name, an RNG draw of exactly 0.0 (a
value `random.uniform(0.0, 1.0)` can return) satisfies the source's
non-strict test `draw <= error`, so the correct decision is flipped and the
yielded score is 0.0 where the claim requires 1.0; any positive draw gives
the claimed score 1.0. -/
theorem oracle_zero_fallibility_zero_draw :
    ibeis_plugin_identification_example_oracle (fun _ => 5) 0 [(1, 2)] (fun _ => 0) = [0]
    ∧ ibeis_plugin_identification_example_oracle (fun _ => 5) 0 [(1, 2)] (fun _ => 1) = [1] := by
  decide

/-- C4 (counterexample): canonicalizing the all-defaults hash config with
`name=repr(value)` entries, as the claim words it, yields
`hash_algorithm='sha1'` with quotes, not the documented
`IdentificationExampleImageHash(hash_algorithm=sha1,hash_rounds=1000000)`. -/
theorem cfgstr_repr_counterexample :
    canonicalize_repr "IdentificationExampleImageHash" IdentificationExampleImageHashConfig []
      = "IdentificationExampleImageHash(hash_algorithm='sha1',hash_rounds=1000000)"
    ∧ canonicalize_repr "IdentificationExampleImageHash" IdentificationExampleImageHashConfig []
      ≠ "IdentificationExampleImageHash(hash_algorithm=sha1,hash_rounds=1000000)" := by
  decide

/-- C4 (amended): with entries formatted as `name=str(value)` (Python `str`:
like `repr` but strings unquoted), hide-if-default omission and declared
order produce exactly the documented config keys, and a parameter supplied
explicitly at its hide-if-default value canonicalizes the same as an
omitted one. -/
theorem cfgstr_str_amended :
    canonicalize_str "IdentificationExampleImageHash" IdentificationExampleImageHashConfig []
      = "IdentificationExampleImageHash(hash_algorithm=sha1,hash_rounds=1000000)"
    ∧ canonicalize_str "IdentificationExampleImageHashSum" IdentificationExampleImageHashSumConfig []
      = "IdentificationExampleImageHashSum()"
    ∧ canonicalize_str "IdentificationExampleImageHash" IdentificationExampleImageHashConfig
        [("hash_algorithm", PyVal.str "sha256"), ("hash_rounds", PyVal.int 100),
         ("hash_salt", PyVal.bytes "test")]
      = "IdentificationExampleImageHash(hash_algorithm=sha256,hash_rounds=100,hash_salt=b'test')"
    ∧ canonicalize_str "IdentificationExampleImageHashProd" IdentificationExampleImageHashProdConfig []
      = "IdentificationExampleImageHashProd(hash_prod_mod=1000)"
    ∧ canonicalize_str "IdentificationExampleImageHashSum" IdentificationExampleImageHashSumConfig
        [("hash_sum_mod", PyVal.none)]
      = canonicalize_str "IdentificationExampleImageHashSum" IdentificationExampleImageHashSumConfig [] := by
  decide

/-- C5 (counterexample): an out-of-range `hash_prod_mod` is not rejected at
config-resolution time — the parameter declares no allowed-values set and
no type validator, so resolution succeeds — and the product compute
function itself is the place that fails, with an `AssertionError`, when it
is invoked with the out-of-range modulus. -/
theorem hash_prod_mod_resolution_counterexample :
    resolve_config IdentificationExampleImageHashProdConfig
        [("hash_prod_mod", PyVal.int 100000000)]
      = Except.ok [("hash_prod_mod", PyVal.int 100000000)]
    ∧ ibeis_plugin_identification_example_image_hash_prod 100000000 [[51]]
      = Except.error "AssertionError: modulus should be relatively small (within a million of zero)" := by
  decide

/-- C5 (amended): values violating a parameter's declared schema constraints
are rejected with `InvalidConfigError` at config-resolution time (an
unlisted `hash_algorithm`, a non-integer `hash_rounds`); but the range
restriction on `hash_prod_mod` is not a schema constraint — any out-of-range
modulus passes resolution and every invocation of the product compute
function with it raises the function's own `AssertionError`. -/
theorem invalid_config_amended :
    (∀ v : PyVal, v ∉ [PyVal.str "sha1", PyVal.str "sha256"] →
        resolve_config IdentificationExampleImageHashConfig [("hash_algorithm", v)]
          = Except.error "InvalidConfigError")
    ∧ resolve_config IdentificationExampleImageHashConfig [("hash_rounds", PyVal.str "many")]
        = Except.error "InvalidConfigError"
    ∧ (∀ (m : Int) (hash_list : List (List Int)), m < -10000000 ∨ 10000000 < m →
        ibeis_plugin_identification_example_image_hash_prod m hash_list
          = Except.error "AssertionError: modulus should be relatively small (within a million of zero)")
    ∧ resolve_config IdentificationExampleImageHashProdConfig
        [("hash_prod_mod", PyVal.int 100000000)]
      = Except.ok [("hash_prod_mod", PyVal.int 100000000)] := by
  refine ⟨?_, by decide, ?_, by decide⟩
  · intro v hv
    simp only [resolve_config, IdentificationExampleImageHashConfig, List.all_cons,
      check_param, resolve_value, List.lookup, type_ok]
    simp
    simpa using hv
  · intro m hash_list hm
    simp only [ibeis_plugin_identification_example_image_hash_prod]
    rw [if_neg]
    omega

/-- C5 (witness): the amended statement applied at `hash_algorithm` set to
the integer 7 and at modulus 20000001. -/
theorem invalid_config_amended_witness :
    resolve_config IdentificationExampleImageHashConfig [("hash_algorithm", PyVal.int 7)]
      = Except.error "InvalidConfigError"
    ∧ ibeis_plugin_identification_example_image_hash_prod 20000001 []
      = Except.error "AssertionError: modulus should be relatively small (within a million of zero)" :=
  ⟨invalid_config_amended.1 (PyVal.int 7) (by decide),
   invalid_config_amended.2.2.1 20000001 [] (Or.inr (by decide))⟩

theorem prod_step_bounds (m : Int) (hm : 0 < m) (t c : Int) :
    1 ≤ pymod (t * (|c| + 1)) m + 1 ∧ pymod (t * (|c| + 1)) m + 1 ≤ m := by
  have h1 := Int.fmod_nonneg' (t * (|c| + 1)) hm
  have h2 := Int.fmod_lt_of_pos (t * (|c| + 1)) hm
  unfold pymod
  omega

theorem hash_prod_fold_bounds (m : Int) (hm : 0 < m) :
    ∀ (l : List Int) (t : Int), l ≠ [] →
      1 ≤ l.foldl (fun total character => pymod (total * (|character| + 1)) m + 1) t
      ∧ l.foldl (fun total character => pymod (total * (|character| + 1)) m + 1) t ≤ m := by
  intro l
  induction l with
  | nil => intro t h; exact absurd rfl h
  | cons c rest ih =>
    intro t _
    match rest, ih with
    | [], _ => simpa using prod_step_bounds m hm t c
    | d :: rest2, ih => exact ih (pymod (t * (|c| + 1)) m + 1) (by simp)

/-- C10 (counterexample): for the empty hash the product compute loop never
runs, so the yielded value is the initial total 0, which lies outside the
claimed interval `[1, m]`. -/
theorem hash_prod_empty_counterexample :
    hash_prod_single 1000 [] = 0 ∧ ¬ 1 ≤ hash_prod_single 1000 [] := by
  decide

/-- C10 (amended): for every nonempty input hash (every actual hash is a
40- or 64-character hex digest, hence nonempty) and every positive modulus
m, the hash-prod value lies in `[1, m]`: each character is mapped to
`abs(int(character)) + 1`, the running total is reduced with Python `%`
after every multiplication, and 1 is added after each reduction. -/
theorem hash_prod_range_amended :
    ∀ (hash : List Int) (m : Int), hash ≠ [] → 0 < m →
      1 ≤ hash_prod_single m hash ∧ hash_prod_single m hash ≤ m := by
  intro hash m hne hm
  exact hash_prod_fold_bounds m hm hash 0 hne

/-- C10 (witness): the amended range statement applied at the two-character
hash `[51, 48]` and modulus 1000. -/
theorem hash_prod_range_amended_witness :
    1 ≤ hash_prod_single 1000 [51, 48] ∧ hash_prod_single 1000 [51, 48] ≤ 1000 :=
  hash_prod_range_amended [51, 48] 1000 (by decide) (by decide)

theorem lookup_row_append_some {α : Type} {l1 l2 : List (ConfigKey × EntityId × RowId × α)}
    {cfg : ConfigKey} {e : EntityId} {x : RowId × α} (h : lookup_row l1 cfg e = Option.some x) :
    lookup_row (l1 ++ l2) cfg e = Option.some x := by
  induction l1 with
  | nil => simp [lookup_row] at h
  | cons q rest ih =>
    obtain ⟨c, e0, r, v⟩ := q
    by_cases hq : c = cfg ∧ e0 = e
    · simp only [lookup_row, if_pos hq] at h
      simp only [List.cons_append, lookup_row, if_pos hq, h]
    · simp only [lookup_row, if_neg hq] at h
      simp only [List.cons_append, lookup_row, if_neg hq]
      exact ih h

theorem lookup_row_append_none {α : Type} {l1 : List (ConfigKey × EntityId × RowId × α)}
    (l2 : List (ConfigKey × EntityId × RowId × α))
    {cfg : ConfigKey} {e : EntityId} (h : lookup_row l1 cfg e = Option.none) :
    lookup_row (l1 ++ l2) cfg e = lookup_row l2 cfg e := by
  induction l1 with
  | nil => simp
  | cons q rest ih =>
    obtain ⟨c, e0, r, v⟩ := q
    by_cases hq : c = cfg ∧ e0 = e
    · simp only [lookup_row, if_pos hq] at h
      exact Option.noConfusion h
    · simp only [lookup_row, if_neg hq] at h
      simp only [List.cons_append, lookup_row, if_neg hq]
      exact ih h

theorem lookup_overwrite_self {α : Type} {rows : List (ConfigKey × EntityId × RowId × α)}
    {cfg : ConfigKey} {e : EntityId} {r : RowId} {v0 : α} (v : α)
    (h : lookup_row rows cfg e = Option.some (r, v0)) :
    lookup_row (overwrite_row rows cfg e v) cfg e = Option.some (r, v) := by
  induction rows with
  | nil => simp [lookup_row] at h
  | cons q rest ih =>
    obtain ⟨c, e0, r0, v1⟩ := q
    by_cases hq : c = cfg ∧ e0 = e
    · simp only [lookup_row, if_pos hq, Option.some.injEq, Prod.mk.injEq] at h
      simp only [overwrite_row, if_pos hq]
      simp only [lookup_row, if_pos hq, Option.some.injEq, Prod.mk.injEq]
      exact ⟨h.1, trivial⟩
    · simp only [lookup_row, if_neg hq] at h
      simp only [overwrite_row, if_neg hq]
      simp only [lookup_row, if_neg hq]
      exact ih h

theorem lookup_overwrite_other {α : Type} (rows : List (ConfigKey × EntityId × RowId × α))
    {cfg : ConfigKey} {e : EntityId} (v : α) {cfg2 : ConfigKey} {e2 : EntityId}
    (h : ¬(cfg = cfg2 ∧ e = e2)) :
    lookup_row (overwrite_row rows cfg e v) cfg2 e2 = lookup_row rows cfg2 e2 := by
  induction rows with
  | nil => rfl
  | cons q rest ih =>
    obtain ⟨c, e0, r0, v1⟩ := q
    by_cases hq : c = cfg ∧ e0 = e
    · have hne : ¬(c = cfg2 ∧ e0 = e2) := by
        rintro ⟨rfl, rfl⟩
        exact h ⟨hq.1.symm, hq.2.symm⟩
      simp only [overwrite_row, if_pos hq]
      simp only [lookup_row, if_neg hne]
      exact ih
    · simp only [overwrite_row, if_neg hq]
      simp only [lookup_row]
      by_cases hm : c = cfg2 ∧ e0 = e2
      · simp only [if_pos hm]
      · simp only [if_neg hm]
        exact ih

theorem lookup_put_self {α : Type} (t : CacheStore α) (cfg : ConfigKey) (e : EntityId) (v : α) :
    ∃ r, lookup_row (put_row t cfg e v).rows cfg e = Option.some (r, v) := by
  unfold put_row
  cases h : lookup_row t.rows cfg e with
  | some x =>
    obtain ⟨r, v0⟩ := x
    exact ⟨r, lookup_overwrite_self v h⟩
  | none =>
    refine ⟨t.next_rowid, ?_⟩
    rw [lookup_row_append_none _ h]
    simp [lookup_row]

theorem lookup_put_other {α : Type} (t : CacheStore α) (cfg : ConfigKey) (e : EntityId) (v : α)
    {cfg2 : ConfigKey} {e2 : EntityId} (h : ¬(cfg = cfg2 ∧ e = e2)) :
    lookup_row (put_row t cfg e v).rows cfg2 e2 = lookup_row t.rows cfg2 e2 := by
  unfold put_row
  cases hl : lookup_row t.rows cfg e with
  | some x => exact lookup_overwrite_other t.rows v h
  | none =>
    cases h2 : lookup_row t.rows cfg2 e2 with
    | some y => exact lookup_row_append_some h2
    | none =>
      rw [lookup_row_append_none _ h2]
      simp only [lookup_row]
      rw [if_neg]
      rintro ⟨rfl, rfl⟩
      exact h ⟨rfl, rfl⟩

theorem process_ids_cons {α : Type} (f : EntityId → α) (cfg : ConfigKey) (t : CacheStore α)
    (a : EntityId) (rest : List EntityId) :
    process_ids f cfg t (a :: rest) = process_ids f cfg (put_row t cfg a (f a)) rest :=
  rfl

theorem process_preserves {α : Type} (f : EntityId → α) (cfg : ConfigKey) (l : List EntityId) :
    ∀ (t : CacheStore α) (e : EntityId),
      (∃ r, lookup_row t.rows cfg e = Option.some (r, f e)) →
      ∃ r, lookup_row (process_ids f cfg t l).rows cfg e = Option.some (r, f e) := by
  induction l with
  | nil => intro t e h; exact h
  | cons a rest ih =>
    intro t e h
    obtain ⟨r, hr⟩ := h
    simp only [process_ids, List.foldl_cons]
    by_cases ha : a = e
    · subst ha
      exact ih (put_row t cfg a (f a)) a (lookup_put_self t cfg a (f a))
    · refine ih (put_row t cfg a (f a)) e ⟨r, ?_⟩
      rw [lookup_put_other t cfg a (f a) (by rintro ⟨-, rfl⟩; exact ha rfl)]
      exact hr

theorem process_computes {α : Type} (f : EntityId → α) (cfg : ConfigKey) (l : List EntityId) :
    ∀ (t : CacheStore α) (e : EntityId), e ∈ l →
      ∃ r, lookup_row (process_ids f cfg t l).rows cfg e = Option.some (r, f e) := by
  induction l with
  | nil => intro t e h; simp at h
  | cons a rest ih =>
    intro t e h
    simp only [process_ids, List.foldl_cons]
    rcases List.mem_cons.1 h with rfl | hmem
    · exact process_preserves f cfg rest (put_row t cfg e (f e)) e (lookup_put_self t cfg e (f e))
    · exact ih (put_row t cfg a (f a)) e hmem

theorem process_frame {α : Type} (f : EntityId → α) (cfg : ConfigKey) (l : List EntityId) :
    ∀ (t : CacheStore α) (cfg2 : ConfigKey) (e2 : EntityId), (cfg2 ≠ cfg ∨ e2 ∉ l) →
      lookup_row (process_ids f cfg t l).rows cfg2 e2 = lookup_row t.rows cfg2 e2 := by
  induction l with
  | nil => intro t cfg2 e2 _; rfl
  | cons a rest ih =>
    intro t cfg2 e2 h
    rw [process_ids_cons]
    have hstep : ¬(cfg = cfg2 ∧ a = e2) := by
      rintro ⟨rfl, rfl⟩
      rcases h with h | h
      · exact h rfl
      · exact h (List.mem_cons_self a rest)
    have hrest : cfg2 ≠ cfg ∨ e2 ∉ rest := by
      rcases h with h | h
      · exact Or.inl h
      · exact Or.inr (fun hm => h (List.mem_cons_of_mem a hm))
    rw [ih (put_row t cfg a (f a)) cfg2 e2 hrest, lookup_put_other t cfg a (f a) hstep]

theorem chunk_go_flatten {β : Type} (n : Nat) :
    ∀ (l : List β) (k : Nat) (acc : List β), (chunk_go n l k acc).flatten = acc ++ l := by
  intro l
  induction l with
  | nil =>
    intro k acc
    by_cases h : acc.isEmpty
    · rw [List.isEmpty_iff] at h
      simp [chunk_go, h]
    · simp only [chunk_go, if_neg h]
      simp
  | cons a l ih =>
    intro k acc
    cases k with
    | zero =>
      simp only [chunk_go, List.flatten_cons, ih]
      simp
    | succ k =>
      simp only [chunk_go, ih]
      simp

theorem chunk_list_flatten {β : Type} : ∀ (n : Nat) (l : List β), (chunk_list n l).flatten = l := by
  intro n l
  match n with
  | 0 =>
    by_cases h : l.isEmpty
    · rw [List.isEmpty_iff] at h
      simp [chunk_list, h]
    · simp only [chunk_list, if_neg h]
      simp
  | m + 1 =>
    simp [chunk_list, chunk_go_flatten]

theorem chunks_flatten {β : Type} (c : Option Nat) (l : List β) : (chunks c l).flatten = l := by
  cases l with
  | nil => cases c <;> simp [chunks]
  | cons a l =>
    cases c with
    | none => simp [chunks]
    | some n => exact chunk_list_flatten n (a :: l)

theorem mem_of_mem_chunks {β : Type} {c : Option Nat} {l : List β} {b : List β} {x : β}
    (hb : b ∈ chunks c l) (hx : x ∈ b) : x ∈ l :=
  chunks_flatten c l ▸ List.mem_flatten_of_mem hb hx

theorem chunk_go_ne_nil {β : Type} (n : Nat) :
    ∀ (l : List β) (k : Nat) (acc : List β), (acc = [] → 1 ≤ k) →
      ∀ b ∈ chunk_go n l k acc, b ≠ [] := by
  intro l
  induction l with
  | nil =>
    intro k acc _ b hb
    by_cases h : acc.isEmpty
    · simp [chunk_go, h] at hb
    · simp only [chunk_go, if_neg h, List.mem_singleton] at hb
      subst hb
      rwa [List.isEmpty_iff] at h
  | cons a l ih =>
    intro k acc hk b hb
    cases k with
    | zero =>
      simp only [chunk_go, List.mem_cons] at hb
      rcases hb with rfl | hb
      · intro hnil
        exact absurd (hk hnil) (by omega)
      · exact ih (n - 1) [a] (by simp) b hb
    | succ k =>
      simp only [chunk_go] at hb
      exact ih k (acc ++ [a]) (by simp) b hb

theorem chunk_list_ne_nil {β : Type} : ∀ (n : Nat) (l : List β) (b : List β),
    b ∈ chunk_list n l → b ≠ [] := by
  intro n l b hb
  match n with
  | 0 =>
    by_cases h : l.isEmpty
    · simp [chunk_list, h] at hb
    · simp only [chunk_list, if_neg h, List.mem_singleton] at hb
      subst hb
      rwa [List.isEmpty_iff] at h
  | m + 1 =>
    exact chunk_go_ne_nil (m + 1) l (m + 1) [] (by omega) b hb

theorem chunks_ne_nil {β : Type} {c : Option Nat} {l : List β} {b : List β}
    (hb : b ∈ chunks c l) : b ≠ [] := by
  cases l with
  | nil => cases c <;> simp [chunks] at hb
  | cons a l =>
    cases c with
    | none =>
      simp only [chunks, List.mem_singleton] at hb
      subst hb
      simp
    | some n => exact chunk_list_ne_nil n (a :: l) b hb

theorem fold_batches {α : Type} (f : EntityId → α) (cfg : ConfigKey) (c : Option Nat)
    (t : CacheStore α) (l : List EntityId) :
    (chunks c l).foldl (fun acc b => process_ids f cfg acc b) t = process_ids f cfg t l := by
  conv_rhs => rw [← chunks_flatten c l]
  simp only [process_ids]
  rw [List.foldl_flatten]

theorem executor_store {α : Type} (f : EntityId → α) (c : Option Nat) (cfg : ConfigKey)
    (t : CacheStore α) (ids : List EntityId) :
    (executor_get f c cfg t ids).store
      = process_ids f cfg t (ids.dedup.filter (fun e => (lookup_row t.rows cfg e).isNone)) :=
  fold_batches f cfg c t _

theorem executor_out {α : Type} (f : EntityId → α) (c : Option Nat) (cfg : ConfigKey)
    (t : CacheStore α) (ids : List EntityId) :
    (executor_get f c cfg t ids).out
      = ids.map (fun e => (lookup_row (executor_get f c cfg t ids).store.rows cfg e).getD (0, f e)) :=
  rfl

theorem executor_calls {α : Type} (f : EntityId → α) (c : Option Nat) (cfg : ConfigKey)
    (t : CacheStore α) (ids : List EntityId) :
    (executor_get f c cfg t ids).calls
      = chunks c (ids.dedup.filter (fun e => (lookup_row t.rows cfg e).isNone)) :=
  rfl

theorem executor_caches {α : Type} (f : EntityId → α) (c : Option Nat) (cfg : ConfigKey)
    (t : CacheStore α) (ids : List EntityId) {e : EntityId} (he : e ∈ ids) :
    (lookup_row (executor_get f c cfg t ids).store.rows cfg e).isSome := by
  rw [executor_store]
  by_cases h : (lookup_row t.rows cfg e).isNone
  · have hm : e ∈ ids.dedup.filter (fun x => (lookup_row t.rows cfg x).isNone) :=
      List.mem_filter.2 ⟨List.mem_dedup.2 he, h⟩
    obtain ⟨r, hr⟩ := process_computes f cfg _ t e hm
    simp [hr]
  · have hnm : e ∉ ids.dedup.filter (fun x => (lookup_row t.rows cfg x).isNone) := by
      intro hm
      exact h (List.mem_filter.1 hm).2
    rw [process_frame f cfg _ t cfg e (Or.inr hnm)]
    cases hl : lookup_row t.rows cfg e with
    | some x => simp
    | none => exact absurd (by simp [hl]) h

theorem executor_computes_empty {α : Type} (f : EntityId → α) (c : Option Nat) (cfg : ConfigKey)
    (ids : List EntityId) {e : EntityId} (he : e ∈ ids) :
    ∃ r, lookup_row (executor_get f c cfg CacheStore.empty ids).store.rows cfg e
      = Option.some (r, f e) := by
  rw [executor_store]
  refine process_computes f cfg _ _ e ?_
  refine List.mem_filter.2 ⟨List.mem_dedup.2 he, ?_⟩
  rfl

theorem chunks_nil {β : Type} (c : Option Nat) : chunks (β := β) c [] = [] := by
  cases c <;> rfl

/-- C6: for a fixed node (compute function and chunk size), config and entity
id list, a second `get` right after a first one returns the same sequence,
leaves the cache partition unchanged, and performs no compute-function
invocation at all (its batch trace is empty). -/
theorem executor_get_idempotent {α : Type} (f : EntityId → α) (c : Option Nat)
    (cfg : ConfigKey) (t : CacheStore α) (ids : List EntityId) :
    (executor_get f c cfg (executor_get f c cfg t ids).store ids).out
      = (executor_get f c cfg t ids).out
    ∧ (executor_get f c cfg (executor_get f c cfg t ids).store ids).store
      = (executor_get f c cfg t ids).store
    ∧ (executor_get f c cfg (executor_get f c cfg t ids).store ids).calls = [] := by
  have hmiss : ids.dedup.filter
      (fun e => (lookup_row (executor_get f c cfg t ids).store.rows cfg e).isNone) = [] := by
    rw [List.filter_eq_nil_iff]
    intro a ha hnone
    have hs := executor_caches f c cfg t ids (List.mem_dedup.1 ha)
    rw [Option.isNone_iff_eq_none] at hnone
    rw [hnone] at hs
    simp at hs
  have hstore : (executor_get f c cfg (executor_get f c cfg t ids).store ids).store
      = (executor_get f c cfg t ids).store := by
    rw [executor_store f c cfg _ ids, hmiss]
    rfl
  refine ⟨?_, hstore, ?_⟩
  · rw [executor_out f c cfg _ ids, hstore]
    exact (executor_out f c cfg t ids).symm
  · rw [executor_calls f c cfg _ ids, hmiss, chunks_nil]

/-- C8: the sequence `get` returns is parallel to the input entity ids — it
is literally a map over the input list, so its order matches the input
order and a repeated id yields a repeated result — from an empty cache its
values are exactly the compute function applied to each input id in input
order, and both the hash-sum and the oracle compute functions produce
exactly one output per input, in input order. -/
theorem executor_get_parallel {α : Type} (f : EntityId → α) (c : Option Nat)
    (cfg : ConfigKey) (t : CacheStore α) (ids : List EntityId)
    (hash_list : List (List Nat)) (modulus : Option Nat)
    (nid : Nat → Int) (fallibility : Rat) (pair_list : List (Nat × Nat)) (draws : Nat → Rat) :
    (∃ g : EntityId → RowId × α, (executor_get f c cfg t ids).out = ids.map g)
    ∧ (executor_get f c cfg CacheStore.empty ids).out.map Prod.snd = ids.map f
    ∧ ibeis_plugin_identification_example_image_hash_sum hash_list modulus
      = hash_list.map (hash_sum_single modulus)
    ∧ (ibeis_plugin_identification_example_oracle nid fallibility pair_list draws).length
      = pair_list.length := by
  refine ⟨⟨fun e => (lookup_row (executor_get f c cfg t ids).store.rows cfg e).getD (0, f e),
    executor_out f c cfg t ids⟩, ?_, rfl, ?_⟩
  · rw [executor_out f c cfg CacheStore.empty ids, List.map_map]
    refine List.map_congr_left ?_
    intro e he
    obtain ⟨r, hr⟩ := executor_computes_empty f c cfg ids he
    simp [Function.comp, hr]
  · simp [ibeis_plugin_identification_example_oracle, List.enum_length]

/-- C9: a `get` with an empty entity id list returns the empty sequence,
leaves the cache partition untouched and invokes no compute function; and
no batch ever passed to a compute function is empty. -/
theorem executor_get_empty_ids {α : Type} (f : EntityId → α) (c : Option Nat)
    (cfg : ConfigKey) (t : CacheStore α) :
    executor_get f c cfg t [] = ⟨[], t, []⟩
    ∧ ∀ (ids : List EntityId) (b : List EntityId),
        b ∈ (executor_get f c cfg t ids).calls → b ≠ [] := by
  constructor
  · cases c <;> rfl
  · intro ids b hb
    rw [executor_calls] at hb
    exact chunks_ne_nil hb

/-- C9 (witness): the empty-request statement at a concrete node, and the
nonemptiness of the one batch of a concrete nonempty request. -/
theorem executor_get_empty_ids_witness :
    executor_get (fun e => e + 1) Option.none "IdentificationExampleImageHash()"
      (CacheStore.empty : CacheStore Nat) [] = ⟨[], CacheStore.empty, []⟩
    ∧ ([1] : List EntityId) ≠ [] :=
  ⟨(executor_get_empty_ids (fun e => e + 1) Option.none "IdentificationExampleImageHash()"
      CacheStore.empty).1,
   (executor_get_empty_ids (fun e => e + 1) Option.none "IdentificationExampleImageHash()"
      CacheStore.empty).2 [1] [1] (by decide)⟩

theorem sum_append_ordered {γ δ : Type} (A : List γ) (B : List δ) :
    ∀ (i j : Nat) (hi : i < (A.map Sum.inl ++ B.map Sum.inr).length)
      (hj : j < (A.map Sum.inl ++ B.map Sum.inr).length),
      ((A.map Sum.inl ++ B.map Sum.inr)[i]).isLeft →
      ((A.map Sum.inl ++ B.map Sum.inr)[j]).isRight → i < j := by
  intro i j hi hj hL hR
  have hiA : i < (A.map (Sum.inl : γ → γ ⊕ δ)).length := by
    by_contra hge
    push_neg at hge
    rw [List.getElem_append_right hge] at hL
    simp at hL
  have hjB : (A.map (Sum.inl : γ → γ ⊕ δ)).length ≤ j := by
    by_contra hlt
    push_neg at hlt
    rw [List.getElem_append_left hlt] at hR
    simp at hR
  exact Nat.lt_of_lt_of_le hiA hjB

theorem chain_parent_eq {α β : Type} [Inhabited α] (fp : EntityId → α) (fc : α → β)
    (cp cc : Option Nat) (cfgP cfgC : ConfigKey) (s : ChainState α β) (ids : List EntityId) :
    (chain_get fp fc cp cc cfgP cfgC s ids).state.parent
      = (executor_get fp cp cfgP s.parent ids).store :=
  rfl

theorem chain_prids_eq {α β : Type} [Inhabited α] (fp : EntityId → α) (fc : α → β)
    (cp cc : Option Nat) (cfgP cfgC : ConfigKey) (s : ChainState α β) (ids : List EntityId) :
    (chain_get fp fc cp cc cfgP cfgC s ids).parent_rowids
      = (executor_get fp cp cfgP s.parent ids).out.map Prod.fst :=
  rfl

theorem chain_child_eq {α β : Type} [Inhabited α] (fp : EntityId → α) (fc : α → β)
    (cp cc : Option Nat) (cfgP cfgC : ConfigKey) (s : ChainState α β) (ids : List EntityId) :
    (chain_get fp fc cp cc cfgP cfgC s ids).state.child
      = (executor_get
          (fun r => fc ((lookup_native (executor_get fp cp cfgP s.parent ids).store.rows r).getD
            default))
          cc cfgC s.child ((executor_get fp cp cfgP s.parent ids).out.map Prod.fst)).store :=
  rfl

theorem chain_ccalls_eq {α β : Type} [Inhabited α] (fp : EntityId → α) (fc : α → β)
    (cp cc : Option Nat) (cfgP cfgC : ConfigKey) (s : ChainState α β) (ids : List EntityId) :
    (chain_get fp fc cp cc cfgP cfgC s ids).child_calls
      = (executor_get
          (fun r => fc ((lookup_native (executor_get fp cp cfgP s.parent ids).store.rows r).getD
            default))
          cc cfgC s.child ((executor_get fp cp cfgP s.parent ids).out.map Prod.fst)).calls :=
  rfl

/-- C3: a `get` on a child node first materializes the parent: afterwards
every requested entity id has a parent row and every obtained parent native
row id has a child row; every id batch handed to the child's compute
function consists of the parent's native row ids; and in the invocation
trace every parent compute batch precedes every child compute batch. -/
theorem chain_get_materializes_parents {α β : Type} [Inhabited α]
    (fp : EntityId → α) (fc : α → β) (cp cc : Option Nat) (cfgP cfgC : ConfigKey)
    (s : ChainState α β) (ids : List EntityId) (r : ChainOut α β)
    (hr : r = chain_get fp fc cp cc cfgP cfgC s ids) :
    (∀ e ∈ ids, (lookup_row r.state.parent.rows cfgP e).isSome)
    ∧ (∀ rid ∈ r.parent_rowids, (lookup_row r.state.child.rows cfgC rid).isSome)
    ∧ (∀ b ∈ r.child_calls, ∀ x ∈ b, x ∈ r.parent_rowids)
    ∧ (∀ (i j : Nat) (hi : i < (chain_events r).length) (hj : j < (chain_events r).length),
        ((chain_events r)[i]).isLeft → ((chain_events r)[j]).isRight → i < j) := by
  subst hr
  refine ⟨?_, ?_, ?_, ?_⟩
  · intro e he
    rw [chain_parent_eq]
    exact executor_caches fp cp cfgP s.parent ids he
  · intro rid hrid
    rw [chain_prids_eq] at hrid
    rw [chain_child_eq]
    exact executor_caches _ cc cfgC s.child _ hrid
  · intro b hb x hx
    rw [chain_ccalls_eq, executor_calls] at hb
    have hxm := mem_of_mem_chunks hb hx
    rw [chain_prids_eq]
    exact List.mem_dedup.1 (List.mem_filter.1 hxm).1
  · intro i j hi hj hL hR
    exact sum_append_ordered _ _ i j hi hj hL hR

/-- C3 (witness): the chain statement at a concrete two-entity request from
empty caches with parent chunk size 1: entity 1 has a parent row, parent
row id 0 has a child row, row id 0 is what the child compute batch
received, and the first trace entry (a parent batch) precedes the third (the
child batch). -/
theorem chain_get_materializes_parents_witness :
    (lookup_row sample_chain_get.state.parent.rows "P" 1).isSome
    ∧ (lookup_row sample_chain_get.state.child.rows "C" 0).isSome
    ∧ (0 : RowId) ∈ sample_chain_get.parent_rowids
    ∧ (0 : Nat) < 2 :=
  ⟨(chain_get_materializes_parents (fun e => e + 10) (fun a => a * 2) (Option.some 1)
      (Option.some 10) "P" "C" ChainState.empty [1, 2] sample_chain_get rfl).1 1 (by decide),
   (chain_get_materializes_parents (fun e => e + 10) (fun a => a * 2) (Option.some 1)
      (Option.some 10) "P" "C" ChainState.empty [1, 2] sample_chain_get rfl).2.1 0 (by decide),
   (chain_get_materializes_parents (fun e => e + 10) (fun a => a * 2) (Option.some 1)
      (Option.some 10) "P" "C" ChainState.empty [1, 2] sample_chain_get rfl).2.2.1
     [0, 1] (by decide) 0 (by decide),
   (chain_get_materializes_parents (fun e => e + 10) (fun a => a * 2) (Option.some 1)
      (Option.some 10) "P" "C" ChainState.empty [1, 2] sample_chain_get rfl).2.2.2
     0 2 (by decide) (by decide) (by decide) (by decide)⟩

theorem lookup_filter_dp {α : Type} (cfg : ConfigKey) (ids : List EntityId) :
    ∀ (rows : List (ConfigKey × EntityId × RowId × α)) (cfg2 : ConfigKey) (e : EntityId),
      cfg2 ≠ cfg ∨ e ∉ ids →
      lookup_row (rows.filter (fun q => decide (¬(q.1 = cfg ∧ q.2.1 ∈ ids)))) cfg2 e
        = lookup_row rows cfg2 e := by
  intro rows
  induction rows with
  | nil => intro cfg2 e _; rfl
  | cons q rest ih =>
    intro cfg2 e h
    obtain ⟨c, e0, r0, v0⟩ := q
    by_cases hkeep : c = cfg ∧ e0 ∈ ids
    · rw [List.filter_cons_of_neg (by simp only [decide_eq_true_eq, not_not]; exact hkeep)]
      have hhead : ¬(c = cfg2 ∧ e0 = e) := by
        rintro ⟨rfl, rfl⟩
        rcases h with h | h
        · exact h hkeep.1
        · exact h hkeep.2
      rw [ih cfg2 e h]
      simp only [lookup_row, if_neg hhead]
    · rw [List.filter_cons_of_pos (by simpa only [decide_eq_true_eq] using hkeep)]
      by_cases hhead : c = cfg2 ∧ e0 = e
      · simp only [lookup_row, if_pos hhead]
      · simp only [lookup_row, if_neg hhead]
        exact ih cfg2 e h

theorem lookup_filter_dp_mem {α : Type} (cfg : ConfigKey) (ids : List EntityId) :
    ∀ (rows : List (ConfigKey × EntityId × RowId × α)) (e : EntityId), e ∈ ids →
      lookup_row (rows.filter (fun q => decide (¬(q.1 = cfg ∧ q.2.1 ∈ ids)))) cfg e
        = Option.none := by
  intro rows
  induction rows with
  | nil => intro e _; rfl
  | cons q rest ih =>
    intro e he
    obtain ⟨c, e0, r0, v0⟩ := q
    by_cases hkeep : c = cfg ∧ e0 ∈ ids
    · rw [List.filter_cons_of_neg (by simp only [decide_eq_true_eq, not_not]; exact hkeep)]
      exact ih e he
    · rw [List.filter_cons_of_pos (by simpa only [decide_eq_true_eq] using hkeep)]
      have hhead : ¬(c = cfg ∧ e0 = e) := by
        rintro ⟨rfl, rfl⟩
        exact hkeep ⟨rfl, he⟩
      simp only [lookup_row, if_neg hhead]
      exact ih e he

theorem lookup_filter_dpa {α : Type} (ids : List EntityId) :
    ∀ (rows : List (ConfigKey × EntityId × RowId × α)) (cfg2 : ConfigKey) (e : EntityId),
      e ∉ ids →
      lookup_row (rows.filter (fun q => decide (¬ q.2.1 ∈ ids))) cfg2 e
        = lookup_row rows cfg2 e := by
  intro rows
  induction rows with
  | nil => intro cfg2 e _; rfl
  | cons q rest ih =>
    intro cfg2 e h
    obtain ⟨c, e0, r0, v0⟩ := q
    by_cases hkeep : e0 ∈ ids
    · rw [List.filter_cons_of_neg (by simp only [decide_eq_true_eq, not_not]; exact hkeep)]
      have hhead : ¬(c = cfg2 ∧ e0 = e) := by
        rintro ⟨rfl, rfl⟩
        exact h hkeep
      rw [ih cfg2 e h]
      simp only [lookup_row, if_neg hhead]
    · rw [List.filter_cons_of_pos (by simpa only [decide_eq_true_eq] using hkeep)]
      by_cases hhead : c = cfg2 ∧ e0 = e
      · simp only [lookup_row, if_pos hhead]
      · simp only [lookup_row, if_neg hhead]
        exact ih cfg2 e h

theorem lookup_filter_dpa_mem {α : Type} (ids : List EntityId) :
    ∀ (rows : List (ConfigKey × EntityId × RowId × α)) (cfg2 : ConfigKey) (e : EntityId),
      e ∈ ids →
      lookup_row (rows.filter (fun q => decide (¬ q.2.1 ∈ ids))) cfg2 e = Option.none := by
  intro rows
  induction rows with
  | nil => intro cfg2 e _; rfl
  | cons q rest ih =>
    intro cfg2 e he
    obtain ⟨c, e0, r0, v0⟩ := q
    by_cases hkeep : e0 ∈ ids
    · rw [List.filter_cons_of_neg (by simp only [decide_eq_true_eq, not_not]; exact hkeep)]
      exact ih cfg2 e he
    · rw [List.filter_cons_of_pos (by simpa only [decide_eq_true_eq] using hkeep)]
      have hhead : ¬(c = cfg2 ∧ e0 = e) := by
        rintro ⟨-, rfl⟩
        exact hkeep he
      simp only [lookup_row, if_neg hhead]
      exact ih cfg2 e he

/-- C7: `delete_property` removes exactly the targeted config key's rows for
the targeted entities — rows under any other config key, and rows of
untargeted entities, are unchanged — so a subsequent `get` under a different
config key whose rows are cached performs no compute invocation and returns
the same sequence as before the deletion; `delete_property_all` removes the
targeted entities' rows under every config key and leaves other entities'
rows unchanged; and neither operation cascades: deleting on the child node
leaves the parent partition untouched and conversely. -/
theorem delete_property_frame {α β : Type} (t : CacheStore α) (cfg cfg2 : ConfigKey)
    (ids ids2 : List EntityId) (e : EntityId) (f : EntityId → α) (c : Option Nat)
    (s : ChainState α β) :
    (cfg2 ≠ cfg → lookup_row (delete_property t cfg ids).rows cfg2 e = lookup_row t.rows cfg2 e)
    ∧ (e ∈ ids → lookup_row (delete_property t cfg ids).rows cfg e = Option.none)
    ∧ (e ∉ ids → lookup_row (delete_property t cfg ids).rows cfg2 e = lookup_row t.rows cfg2 e)
    ∧ (e ∈ ids → lookup_row (delete_property_all t ids).rows cfg2 e = Option.none)
    ∧ (e ∉ ids → lookup_row (delete_property_all t ids).rows cfg2 e = lookup_row t.rows cfg2 e)
    ∧ (cfg2 ≠ cfg → (∀ x ∈ ids2, (lookup_row t.rows cfg2 x).isSome) →
        (executor_get f c cfg2 (delete_property t cfg ids) ids2).calls = []
        ∧ (executor_get f c cfg2 (delete_property t cfg ids) ids2).out
          = (executor_get f c cfg2 t ids2).out)
    ∧ (chain_delete_child_property s cfg ids).parent = s.parent
    ∧ (chain_delete_parent_property s cfg ids).child = s.child := by
  refine ⟨fun h => lookup_filter_dp cfg ids t.rows cfg2 e (Or.inl h),
    fun h => lookup_filter_dp_mem cfg ids t.rows e h,
    fun h => lookup_filter_dp cfg ids t.rows cfg2 e (Or.inr h),
    fun h => lookup_filter_dpa_mem ids t.rows cfg2 e h,
    fun h => lookup_filter_dpa ids t.rows cfg2 e h,
    ?_, rfl, rfl⟩
  intro hne hcached
  have hlook : ∀ x, lookup_row (delete_property t cfg ids).rows cfg2 x
      = lookup_row t.rows cfg2 x :=
    fun x => lookup_filter_dp cfg ids t.rows cfg2 x (Or.inl hne)
  have hmiss_del : ids2.dedup.filter
      (fun x => (lookup_row (delete_property t cfg ids).rows cfg2 x).isNone) = [] := by
    rw [List.filter_eq_nil_iff]
    intro a ha hnone
    rw [hlook a, Option.isNone_iff_eq_none] at hnone
    have hs := hcached a (List.mem_dedup.1 ha)
    rw [hnone] at hs
    simp at hs
  have hmiss_t : ids2.dedup.filter (fun x => (lookup_row t.rows cfg2 x).isNone) = [] := by
    rw [List.filter_eq_nil_iff]
    intro a ha hnone
    rw [Option.isNone_iff_eq_none] at hnone
    have hs := hcached a (List.mem_dedup.1 ha)
    rw [hnone] at hs
    simp at hs
  have hst_del : (executor_get f c cfg2 (delete_property t cfg ids) ids2).store
      = delete_property t cfg ids := by
    rw [executor_store, hmiss_del]
    rfl
  have hst_t : (executor_get f c cfg2 t ids2).store = t := by
    rw [executor_store, hmiss_t]
    rfl
  constructor
  · rw [executor_calls, hmiss_del, chunks_nil]
  · rw [executor_out f c cfg2 (delete_property t cfg ids) ids2, hst_del,
      executor_out f c cfg2 t ids2, hst_t]
    simp only [hlook]

/-- C7 (witness): the frame statement exercised on `sample_store` (config
keys "A" and "B", entities 1 and 2): deleting config "A" for entity 1
leaves the "B" row and the "A" row of entity 2, removes the "A" row of
entity 1, a `get` under "B" after the deletion makes no compute call and
returns the cached row, `delete_property_all` removes entity 1 under "B"
too but keeps entity 2, and chain deletions touch only their own node. -/
theorem delete_property_frame_witness :
    lookup_row (delete_property sample_store "A" [1]).rows "B" 1
      = lookup_row sample_store.rows "B" 1
    ∧ lookup_row (delete_property sample_store "A" [1]).rows "A" 1 = Option.none
    ∧ lookup_row (delete_property sample_store "A" [1]).rows "A" 2
      = lookup_row sample_store.rows "A" 2
    ∧ lookup_row (delete_property_all sample_store [1]).rows "B" 1 = Option.none
    ∧ lookup_row (delete_property_all sample_store [1]).rows "A" 2
      = lookup_row sample_store.rows "A" 2
    ∧ ((executor_get (fun x => x) Option.none "B" (delete_property sample_store "A" [1])
          [1]).calls = []
        ∧ (executor_get (fun x => x) Option.none "B" (delete_property sample_store "A" [1])
          [1]).out = (executor_get (fun x => x) Option.none "B" sample_store [1]).out)
    ∧ (chain_delete_child_property sample_chain "A" [1]).parent = sample_chain.parent
    ∧ (chain_delete_parent_property sample_chain "A" [1]).child = sample_chain.child :=
  ⟨(delete_property_frame sample_store "A" "B" [1] [1] 1 (fun x => x) Option.none
      sample_chain).1 (by decide),
   (delete_property_frame sample_store "A" "B" [1] [1] 1 (fun x => x) Option.none
      sample_chain).2.1 (by decide),
   (delete_property_frame sample_store "A" "A" [1] [1] 2 (fun x => x) Option.none
      sample_chain).2.2.1 (by decide),
   (delete_property_frame sample_store "A" "B" [1] [1] 1 (fun x => x) Option.none
      sample_chain).2.2.2.1 (by decide),
   (delete_property_frame sample_store "A" "A" [1] [1] 2 (fun x => x) Option.none
      sample_chain).2.2.2.2.1 (by decide),
   (delete_property_frame sample_store "A" "B" [1] [1] 1 (fun x => x) Option.none
      sample_chain).2.2.2.2.2.1 (by decide) (by decide),
   (delete_property_frame sample_store "A" "B" [1] [1] 1 (fun x => x) Option.none
      sample_chain).2.2.2.2.2.2.1,
   (delete_property_frame sample_store "A" "B" [1] [1] 1 (fun x => x) Option.none
      sample_chain).2.2.2.2.2.2.2⟩

end IdPlugin
